import Mathlib

/-!
A shallow embedding of the CapabilitiesController from src/index.ts of the
rpc-cap repository, with theorems settling the specification claims.

Conventions used throughout:
- JS optional fields and possibly-undefined values are modelled as Option.
- JS objects used as string-keyed maps are modelled as association lists kept
  in insertion order: setKey overwrites an existing key in place and appends a
  new key at the end, matching JS object key order.
- Code that can throw a TypeError is modelled with Except Unit; code that can
  diverge (the delegation walk) is modelled with fuel, where a result of
  Option.none means the JS loop never terminates.
- Fresh uuid and Date.now values are supplied by a caller-provided generator
  gen : Nat -> String x Int threaded with a counter: the k-th generation event
  yields id (gen k).1 and timestamp (gen k).2.
- Mutable JS objects are treated as values; each state-changing operation is a
  function from the controller state to the net controller state after the
  call, which coincides with the aliasing JS semantics for the operations
  modelled here (any intermediate in-place registry insertion made by
  getDomainSettings is either returned directly or overwritten by the final
  setDomain of the same key).
-/

deriving instance DecidableEq for Except

/-- A JSON-ish value used for caveat payloads (the source types them any). -/
inductive RVal
  | str (s : String)
  | int (n : Int)
deriving DecidableEq

/-- interface RpcCapCaveat of src/index.ts. -/
structure RpcCapCaveat where
  type : String
  value : Option RVal
deriving DecidableEq

/-- interface RpcCapPermission of src/index.ts; every field is optional there. -/
structure RpcCapPermission where
  method : Option String
  caveats : Option (List RpcCapCaveat)
  id : Option String
  date : Option Int
  granter : Option String
deriving DecidableEq

/-- interface RpcCapDomainEntry: permissions?: RpcCapPermission[]. -/
structure RpcCapDomainEntry where
  permissions : Option (List RpcCapPermission)
deriving DecidableEq

/-- interface IUserApprovalMetadata; id is Option because the middleware
assigns it when absent. -/
structure IUserApprovalMetadata where
  id : Option String
  origin : String
  siteTitle : Option String
deriving DecidableEq

/-- type IMethodRequest = \x7b caveats?: RpcCapCaveat[] \x7d. -/
structure IMethodRequest where
  caveats : Option (List RpcCapCaveat)
deriving DecidableEq

/-- interface IPermissionsRequest; options is the requested-permissions map,
modelled as an association list of method names in insertion order. -/
structure IPermissionsRequest where
  origin : String
  metadata : IUserApprovalMetadata
  options : List (String × IMethodRequest)
deriving DecidableEq

/-- The observable controller state: state.domains (undefined until first
write) and state.permissionsRequests. The static permissionsDescriptions
array is not modelled; no claim mentions it. -/
structure CapState where
  domains : Option (List (String × RpcCapDomainEntry))
  permissionsRequests : List IPermissionsRequest
deriving DecidableEq

/-- interface RestrictedMethodEntry; methodIsFunction models the
typeof entry.method === function test of the source. -/
structure RestrictedMethodEntry where
  description : String
  methodIsFunction : Bool
deriving DecidableEq

/-- The construction-time configuration consumed by the claims: safeMethods,
restrictedMethods and the meta-method name prefix (methodPrefix in the
source). -/
structure CapConfig where
  safeMethods : List String
  restrictedMethods : List (String × RestrictedMethodEntry)
  methodPfx : String
deriving DecidableEq

/-- Key lookup in a JS-object-as-assoc-list. -/
def lookupD {α : Type} : List (String × α) → String → Option α
  | [], _ => none
  | (k, v) :: rest, d => if k = d then some v else lookupD rest d

/-- Key assignment in a JS-object-as-assoc-list: overwrite in place, append
new keys at the end (JS object insertion order). -/
def setKey {α : Type} : List (String × α) → String → α → List (String × α)
  | [], k, v => [(k, v)]
  | (k0, v0) :: rest, k, v =>
    if k0 = k then (k, v) :: rest else (k0, v0) :: setKey rest k v

/-- getDomains (): state.domains or an empty object. -/
def getDomains (s : CapState) : List (String × RpcCapDomainEntry) :=
  match s.domains with
  | none => []
  | some reg => reg

/-- getDomainSettings (domain): returns the domain entry, inserting an empty
entry for a missing domain. The JS code mutates the object returned by
getDomains in place, so when state.domains is a live object the insertion is
immediately visible in the state (second component); when state.domains is
undefined the insertion lands in a temporary object and the state is
unchanged. -/
def getDomainSettings (s : CapState) (domain : String) :
    RpcCapDomainEntry × CapState :=
  match lookupD (getDomains s) domain with
  | some e => (e, s)
  | none =>
    match s.domains with
    | none => ({ permissions := some [] }, s)
    | some reg =>
      ({ permissions := some [] },
       { s with domains := some (setKey reg domain { permissions := some [] }) })

/-- setDomain (domain, settings): write one domain entry and commit. -/
def setDomain (s : CapState) (domain : String) (settings : RpcCapDomainEntry) :
    CapState :=
  { s with domains := some (setKey (getDomains s) domain settings) }

/-- getPermissionsForDomain (domain): the entry's permissions array when the
domain is a key (none models a present entry whose permissions field is
undefined), and an empty array otherwise. -/
def getPermissionsForDomain (s : CapState) (domain : String) :
    Option (List RpcCapPermission) :=
  match lookupD (getDomains s) domain with
  | some e => e.permissions
  | none => some []

/-- Observer: the committed entry of a domain, if any. -/
def lookupDomain (s : CapState) (d : String) : Option RpcCapDomainEntry :=
  lookupD (getDomains s) d

/-- Observer: the committed permissions list of a domain, when the entry
exists and its permissions field is set. -/
def storedPermissions (s : CapState) (d : String) :
    Option (List RpcCapPermission) :=
  match lookupDomain s d with
  | none => none
  | some e => e.permissions

/-- The keys of the domain registry. -/
def keysOf (s : CapState) : List String :=
  (getDomains s).map (fun kv => kv.1)

/-- JS truthiness of an optional string: undefined and the empty string are
falsy; a truthy granter yields its value. -/
def truthy : Option String → Option String
  | none => none
  | some g => if g = "" then none else some g

/-- One hop of getPermission: the first permission of the domain whose method
field matches, Except.error when the entry has an undefined permissions array
(the JS filter call throws). -/
def firstMatch (s : CapState) (method : Option String) (domain : String) :
    Except Unit (Option RpcCapPermission) :=
  match getPermissionsForDomain s domain with
  | none => .error ()
  | some l => .ok ((l.filter (fun p => p.method == method)).head?)

/-- The getPermission while-loop with fuel. At each hop the first matching
permission is taken; a truthy granter replaces the worklist with the granter
domain's matching permissions, a falsy granter returns the permission, and an
empty match list returns undefined. Fuel 0 (result none) models divergence. -/
def gpFuel (s : CapState) (method : Option String) :
    Nat → String → Option (Except Unit (Option RpcCapPermission))
  | 0, _ => none
  | fuel + 1, d =>
    match firstMatch s method d with
    | .error _ => some (.error ())
    | .ok none => some (.ok none)
    | .ok (some p) =>
      match truthy p.granter with
      | none => some (.ok (some p))
      | some g => gpFuel s method fuel g

/-- getPermission (domain, method). The walk visits pairwise-distinct domains
whenever it terminates, and every domain it hops from is a registry key, so
one unit of fuel per registry key plus one is exactly enough: a none result
means the JS loop runs forever. -/
def getPermission (s : CapState) (domain : String) (method : Option String) :
    Option (Except Unit (Option RpcCapPermission)) :=
  gpFuel s method ((keysOf s).length + 1) domain

/-- The delegation-hop relation of the walk: d hops to g when the first
matching permission of d has truthy granter g. -/
def gpStep (s : CapState) (method : Option String) (d g : String) : Prop :=
  ∃ p, firstMatch s method d = .ok (some p) ∧ truthy p.granter = some g

/-- The granter-matching filter of getPermissionUnTraversed, verbatim from the
source: an undefined granter field is an own permission (granter argument
equals the domain), a defined granter field must equal the granter argument. -/
def untraversedPred (method : Option String) (domain : String)
    (granter : Option String) (p : RpcCapPermission) : Bool :=
  p.method == method &&
    ((p.granter == none && granter == some domain) ||
     (!(p.granter == none) && p.granter == granter))

/-- getPermissionUnTraversed (domain, method, granter): first filtered
permission, Except.error when the permissions array is undefined. -/
def getPermissionUnTraversed (s : CapState) (domain : String)
    (method : Option String) (granter : Option String) :
    Except Unit (Option RpcCapPermission) :=
  match getPermissionsForDomain s domain with
  | none => .error ()
  | some l => .ok ((l.filter (untraversedPred method domain granter)).head?)

/-- The granter matching written in the spec's words (section 4.B), for
comparison with the source behaviour: if granter equals the domain the
permission's granter must be the sentinel user, otherwise it must equal the
granter argument. -/
def specGranterMatches (domain : String) (granter : Option String)
    (p : RpcCapPermission) : Bool :=
  if granter == some domain then p.granter == some "user"
  else p.granter == granter

/-- getPermissionUnTraversed as the spec describes it, used only to exhibit
the divergence from the source. -/
def getPermissionUnTraversedSpec (s : CapState) (domain : String)
    (method : Option String) (granter : Option String) :
    Option RpcCapPermission :=
  (((getPermissionsForDomain s domain).getD []).filter
    (fun p => p.method == method && specGranterMatches domain granter p)).head?

/-- Outcome of executeMethod when it returns normally: a static-caveat
short-circuit (res.result set to the caveat value, end called), the
registered handler invoked, or METHOD_NOT_FOUND. -/
inductive ExecOutcome
  | staticResult (v : Option RVal)
  | handlerInvoked
  | methodNotFound
deriving DecidableEq

/-- Uncaught exceptions executeMethod can raise: the internal getPermission
call throwing, or reading caveats of an undefined permission. -/
inductive ExecErr
  | resolverThrew
  | undefinedPermission
deriving DecidableEq

/-- Whether methodName is a key of restrictedMethods with a callable method
field. -/
def isRestrictedCallable (cfg : CapConfig) (m : String) : Bool :=
  match lookupD cfg.restrictedMethods m with
  | some e => e.methodIsFunction
  | none => false

/-- executeMethod: re-resolves the permission, then either short-circuits on
the last static caveat, invokes the handler, or replies METHOD_NOT_FOUND.
Reading permission.caveats with no resolved permission throws. -/
def executeMethod (cfg : CapConfig) (s : CapState) (domain : String)
    (methodName : String) : Option (Except ExecErr ExecOutcome) :=
  match getPermission s domain (some methodName) with
  | none => none
  | some (.error _) => some (.error .resolverThrew)
  | some (.ok po) =>
    some (if isRestrictedCallable cfg methodName then
      match po with
      | none => .error .undefinedPermission
      | some permission =>
        match permission.caveats with
        | none => .ok .handlerInvoked
        | some cs =>
          match (cs.filter (fun c => c.type == "static")).getLast? with
          | some c => .ok (.staticResult c.value)
          | none => .ok .handlerInvoked
    else .ok .methodNotFound)

/-- Terminal behaviours of providerMiddlewareFunction for one request. -/
inductive ProviderOutcome
  | nexted
  | internalDispatch
  | resolverErrorEnd
  | unauthorizedEnd
  | execute (r : Except ExecErr ExecOutcome)
deriving DecidableEq

/-- The four internal meta-method names after prefixing. -/
def internalNames (cfg : CapConfig) : List String :=
  [cfg.methodPfx ++ "getPermissions", cfg.methodPfx ++ "requestPermissions",
   cfg.methodPfx ++ "grantPermissions", cfg.methodPfx ++ "revokePermissions"]

/-- providerMiddlewareFunction routing: safe methods pass through, internal
meta methods dispatch, then the permission is resolved (a throw is caught and
surfaced as a code-1 error, no permission ends UNAUTHORIZED) and the request
executes. -/
def providerMiddlewareFunction (cfg : CapConfig) (s : CapState)
    (domain : String) (methodName : String) : Option ProviderOutcome :=
  if cfg.safeMethods.contains methodName then some .nexted
  else if (internalNames cfg).contains methodName then some .internalDispatch
  else
    match getPermission s domain (some methodName) with
    | none => none
    | some (.error _) => some .resolverErrorEnd
    | some (.ok none) => some .unauthorizedEnd
    | some (.ok (some _)) =>
      (executeMethod cfg s domain methodName).map (fun r => .execute r)

/-- JS falsiness of an optional string id. -/
def strFalsy : Option String → Bool
  | none => true
  | some s => s == ""

/-- The push loop of addPermissionsFor: a permission with a falsy id gets a
fresh id and a date from the generator. -/
def assignIds (gen : Nat → String × Int) :
    List RpcCapPermission → Nat → List RpcCapPermission × Nat
  | [], k => ([], k)
  | p :: rest, k =>
    if strFalsy p.id then
      let r := assignIds gen rest (k + 1)
      ({ p with id := some (gen k).1, date := some (gen k).2 } :: r.1, r.2)
    else
      let r := assignIds gen rest k
      (p :: r.1, r.2)

/-- addPermissionsFor (domainName, newPermissions): drop existing permissions
whose (method, granter) pair matches any new one, assign ids, append all new
permissions, commit via setDomain. Throws when the existing entry has an
undefined permissions array. -/
def addPermissionsFor (s : CapState) (domainName : String)
    (newPermissions : List RpcCapPermission) (gen : Nat → String × Int)
    (k : Nat) : Except Unit (CapState × Nat) :=
  match ((getDomainSettings s domainName).1).permissions with
  | none => .error ()
  | some oldPerms =>
    let kept := oldPerms.filter (fun oldPerm =>
      !(newPermissions.any (fun newPerm =>
        oldPerm.method == newPerm.method && oldPerm.granter == newPerm.granter)))
    let r := assignIds gen newPermissions k
    .ok (setDomain s domainName { permissions := some (kept ++ r.1) }, r.2)

/-- removePermissionsFor (domainName, permissionsToRemove): keep permissions
whose (method, granter) pair matches no removal entry, commit via setDomain. -/
def removePermissionsFor (s : CapState) (domainName : String)
    (permissionsToRemove : List RpcCapPermission) : Except Unit CapState :=
  match ((getDomainSettings s domainName).1).permissions with
  | none => .error ()
  | some perms =>
    let kept := perms.filter (fun perm =>
      !(permissionsToRemove.any (fun r =>
        r.method == perm.method && r.granter == perm.granter)))
    .ok (setDomain s domainName { permissions := some kept })

/-- getPermissionsRequests (). -/
def getPermissionsRequests (s : CapState) : List IPermissionsRequest :=
  s.permissionsRequests

/-- setPermissionsRequests (permissionsRequests). -/
def setPermissionsRequests (s : CapState) (reqs : List IPermissionsRequest) :
    CapState :=
  { s with permissionsRequests := reqs }

/-- removePermissionsRequest (requestId): drop pending requests whose
metadata.id equals the given id. -/
def removePermissionsRequest (s : CapState) (requestId : Option String) :
    CapState :=
  setPermissionsRequests s
    ((getPermissionsRequests s).filter (fun r => !(r.metadata.id == requestId)))

/-- The synchronous part of requestPermissionsMiddleware, up to the
requestUserApproval call: build metadata (assigning an id when falsy), build
the PermissionsRequest, append it to the pending list. -/
def requestPermissionsPhase1 (s : CapState) (domain : String)
    (reqMetadata : Option IUserApprovalMetadata)
    (requested : List (String × IMethodRequest)) (gen : Nat → String × Int)
    (k : Nat) : CapState × IPermissionsRequest × Nat :=
  let md := match reqMetadata with
    | some m => m
    | none => { id := none, origin := domain, siteTitle := some domain }
  let mdk : IUserApprovalMetadata × Nat :=
    if strFalsy md.id then ({ md with id := some (gen k).1 }, k + 1) else (md, k)
  let pr : IPermissionsRequest :=
    { origin := domain, metadata := mdk.1, options := requested }
  (setPermissionsRequests s (getPermissionsRequests s ++ [pr]), pr, mdk.2)

/-- Per-request effect counters: how many times end was invoked and how many
times res.error and res.result were assigned during one handler run. -/
structure MWTrace where
  endCount : Nat
  errorSets : Nat
  resultSets : Nat
deriving DecidableEq

/-- The granter || user default of grantNewPermissions. -/
def orUser : Option String → String
  | none => "user"
  | some s => if s = "" then "user" else s

/-- The permission records grantNewPermissions builds from an approval map. -/
def buildGrantPerms (granter : Option String) (gen : Nat → String × Int) :
    List (String × IMethodRequest) → Nat → List RpcCapPermission × Nat
  | [], k => ([], k)
  | (method, mr) :: rest, k =>
    let p : RpcCapPermission :=
      { method := some method, caveats := mr.caveats, id := some (gen k).1,
        date := some (gen k).2, granter := some (orUser granter) }
    let r := buildGrantPerms granter gen rest (k + 1)
    (p :: r.1, r.2)

/-- grantNewPermissions (domain, approved, res, end, granter?): store the
approved permissions, set res.result to the domain's whole permissions list,
call end. An addPermissionsFor throw propagates with the state unchanged. -/
def grantNewPermissions (s : CapState) (domain : String)
    (approved : List (String × IMethodRequest)) (granter : Option String)
    (gen : Nat → String × Int) (k : Nat) :
    CapState × Except Unit (MWTrace × Nat) :=
  let b := buildGrantPerms granter gen approved k
  match addPermissionsFor s domain b.1 gen b.2 with
  | .error _ => (s, .error ())
  | .ok r =>
    (r.1, .ok ({ endCount := 1, errorSets := 0, resultSets := 1 }, r.2))

/-- How the external approver settles: a resolved approval map, or a rejected
promise. -/
inductive ApprovalOutcome
  | resolved (approved : List (String × IMethodRequest))
  | rejected
deriving DecidableEq

/-- The asynchronous continuation of requestPermissionsMiddleware: an empty
approval map replies USER_REJECTED_ERROR, a non-empty one removes the pending
request and grants; a rejected promise replies with the reason. Only the
approval branch removes the pending request. -/
def requestPermissionsContinuation (s : CapState) (domain : String)
    (pr : IPermissionsRequest) (outcome : ApprovalOutcome)
    (gen : Nat → String × Int) (k : Nat) : CapState × Except Unit MWTrace :=
  match outcome with
  | .rejected => (s, .ok { endCount := 1, errorSets := 1, resultSets := 0 })
  | .resolved approved =>
    if approved.length = 0 then
      (s, .ok { endCount := 1, errorSets := 1, resultSets := 0 })
    else
      let s1 := removePermissionsRequest s pr.metadata.id
      let g := grantNewPermissions s1 domain approved none gen k
      match g.2 with
      | .error _ => (g.1, .error ())
      | .ok tr => (g.1, .ok tr.1)

/-- The JS property key under which grantPermissionsMiddleware deduplicates:
an undefined method stringifies to the literal key undefined. -/
def methodKey : Option String → String
  | none => "undefined"
  | some s => s

/-- The duplicate-removal filter of grantPermissionsMiddleware: keep the
first permission per method key. -/
def dedupByMethod : List RpcCapPermission → List String → List RpcCapPermission
  | [], _ => []
  | p :: rest, seen =>
    if seen.contains (methodKey p.method) then dedupByMethod rest seen
    else p :: dedupByMethod rest (methodKey p.method :: seen)

/-- The forEach body of grantPermissionsMiddleware. A return inside the JS
forEach callback only leaves the callback, so the iteration continues past a
failing entry: each failing entry assigns res.error and invokes end once
more. A getPermission throw aborts the whole handler; a diverging
getPermission never returns (none). -/
def grantLoop (s : CapState) (granter : String) (gen : Nat → String × Int) :
    List RpcCapPermission → List RpcCapPermission → Bool → MWTrace → Nat →
    Option (Except Unit (List RpcCapPermission × Bool × MWTrace × Nat))
  | [], acc, ended, tr, k => some (.ok (acc, ended, tr, k))
  | rp :: rest, acc, ended, tr, k =>
    match getPermission s granter rp.method with
    | none => none
    | some (.error _) => some (.error ())
    | some (.ok none) =>
      grantLoop s granter gen rest acc true
        { tr with errorSets := tr.errorSets + 1, endCount := tr.endCount + 1 } k
    | some (.ok (some perm)) =>
      let newPerm : RpcCapPermission :=
        { method := rp.method, caveats := perm.caveats, id := some (gen k).1,
          date := some (gen k).2, granter := some granter }
      grantLoop s granter gen rest (acc ++ [newPerm]) ended tr (k + 1)

/-- grantPermissionsMiddleware with params [grantee, requestedPerms]:
deduplicate by method, resolve each via the granter's own permission, then
either return after the loop (ended) or upsert the staged grants, set
res.result and end. -/
def grantPermissionsMiddleware (s : CapState) (granter : String)
    (grantee : String) (requestedPerms : List RpcCapPermission)
    (gen : Nat → String × Int) (k : Nat) :
    Option (Except Unit (CapState × MWTrace × List RpcCapPermission)) :=
  match grantLoop s granter gen (dedupByMethod requestedPerms []) [] false
      { endCount := 0, errorSets := 0, resultSets := 0 } k with
  | none => none
  | some (.error _) => some (.error ())
  | some (.ok r) =>
    let acc := r.1
    let ended := r.2.1
    let tr := r.2.2.1
    let k1 := r.2.2.2
    if ended then some (.ok (s, tr, acc))
    else
      match addPermissionsFor s grantee acc gen k1 with
      | .error _ => some (.error ())
      | .ok r2 =>
        some (.ok (r2.1,
          { tr with resultSets := tr.resultSets + 1,
                    endCount := tr.endCount + 1 }, acc))

/-- An element of the revokePermissions params list: a method-name string or
a permission-shaped object. -/
inductive RevokeArg
  | byName (s : String)
  | byPerm (p : RpcCapPermission)
deriving DecidableEq

/-- The forEach body of revokePermissionsMiddleware; as in grantLoop, a
failing entry does not break the iteration and invokes end once more. -/
def revokeLoop (s : CapState) (domain : String) (assignedDomain : String) :
    List RevokeArg → List RpcCapPermission → Bool → MWTrace →
    Except Unit (List RpcCapPermission × Bool × MWTrace)
  | [], acc, ended, tr => .ok (acc, ended, tr)
  | arg :: rest, acc, ended, tr =>
    let methodName := match arg with
      | .byName n => some n
      | .byPerm p => p.method
    match getPermissionUnTraversed s assignedDomain methodName (some domain) with
    | .error _ => .error ()
    | .ok (some perm) =>
      if ((match truthy perm.granter with
           | some g => g == domain
           | none => false) || assignedDomain == domain) then
        revokeLoop s domain assignedDomain rest (acc ++ [perm]) ended tr
      else
        revokeLoop s domain assignedDomain rest acc true
          { tr with errorSets := tr.errorSets + 1, endCount := tr.endCount + 1 }
    | .ok none =>
      revokeLoop s domain assignedDomain rest acc true
        { tr with errorSets := tr.errorSets + 1, endCount := tr.endCount + 1 }

/-- revokePermissionsMiddleware with params [assignedDomain, requestedPerms]:
locate each permission untraversed, authorize (granter revokes its grant, or
a domain revokes its own), then either return after the loop (ended) or
remove the staged permissions, set res.result and end. -/
def revokePermissionsMiddleware (s : CapState) (domain : String)
    (assignedDomain : String) (requestedPerms : List RevokeArg) :
    Except Unit (CapState × MWTrace × List RpcCapPermission) :=
  match revokeLoop s domain assignedDomain requestedPerms [] false
      { endCount := 0, errorSets := 0, resultSets := 0 } with
  | .error _ => .error ()
  | .ok r =>
    let acc := r.1
    let ended := r.2.1
    let tr := r.2.2
    if ended then .ok (s, tr, acc)
    else
      match removePermissionsFor s assignedDomain acc with
      | .error _ => .error ()
      | .ok s2 =>
        .ok (s2,
          { tr with resultSets := tr.resultSets + 1,
                    endCount := tr.endCount + 1 }, acc)

/-- A deterministic id/date generator for concrete scenarios. -/
def gen0 : Nat → String × Int := fun k => ("id" ++ toString k, 1000 + (k : Int))

/-- The freshly-constructed controller state. -/
def emptyState : CapState := { domains := none, permissionsRequests := [] }

/-- The S1 configuration: one restricted method write with a callable
handler, no safe methods, empty prefix. -/
def c1cfg : CapConfig :=
  { safeMethods := [],
    restrictedMethods := [("write", { description := "w", methodIsFunction := true })],
    methodPfx := "" }

/-- The S1 requestPermissions call from siteA: the synchronous half of the
middleware on the fresh state. -/
def c1phase1 : CapState × IPermissionsRequest × Nat :=
  requestPermissionsPhase1 emptyState "siteA" none
    [("write", { caveats := none })] gen0 0

/-- The S1 approval: the approver resolves with the requested map. -/
def c1final : CapState × Except Unit MWTrace :=
  requestPermissionsContinuation c1phase1.1 "siteA" c1phase1.2.1
    (.resolved [("write", { caveats := none })]) gen0 c1phase1.2.2

/-- The permission record the approved S1 flow stores for siteA. -/
def c1pW : RpcCapPermission :=
  { method := some "write", caveats := none, id := some "id1",
    date := some 1001, granter := some "user" }

/-- Two permission requests with distinct methods, neither resolvable for the
granter of the C2 scenario. -/
def c2pa : RpcCapPermission :=
  { method := some "a", caveats := none, id := none, date := none, granter := none }

/-- Second unresolvable permission request of the C2 scenario. -/
def c2pb : RpcCapPermission :=
  { method := some "b", caveats := none, id := none, date := none, granter := none }

/-- A fully-populated permission used twice in the duplicate-upsert call. -/
def c3P : RpcCapPermission :=
  { method := some "m", caveats := none, id := some "i", date := some 1,
    granter := some "user" }

/-- The state after addPermissionsFor(d, [P, P]) on the fresh state. -/
def c3res : CapState :=
  match addPermissionsFor emptyState "d" [c3P, c3P] gen0 0 with
  | .ok r => r.1
  | .error _ => emptyState

/-- The pending-request registration of the C4 rejection scenario. -/
def c4phase1 : CapState × IPermissionsRequest × Nat :=
  requestPermissionsPhase1 emptyState "siteA" none
    [("write", { caveats := none })] gen0 0

/-- A user-root permission (granter is the sentinel user). -/
def c5perm : RpcCapPermission :=
  { method := some "m", caveats := none, id := some "i", date := some 1,
    granter := some "user" }

/-- A state in which domain d holds only the user-root permission. -/
def c5s : CapState :=
  { domains := some [("d", { permissions := some [c5perm] })],
    permissionsRequests := [] }

/-- A non-matching first list element for the C5 witness. -/
def c5wP0 : RpcCapPermission :=
  { method := some "x", caveats := none, id := some "i0", date := some 1,
    granter := some "g" }

/-- A matching own permission (undefined granter) for the C5 witness. -/
def c5wP1 : RpcCapPermission :=
  { method := some "m", caveats := none, id := some "i1", date := some 2,
    granter := none }

/-- The C5 witness state. -/
def c5wS : CapState :=
  { domains := some [("d", { permissions := some [c5wP0, c5wP1] })],
    permissionsRequests := [] }

/-- A pre-existing permission sharing the natural key of the one added in the
C6 counterexample. -/
def c6pOld : RpcCapPermission :=
  { method := some "m", caveats := none, id := some "old", date := some 1,
    granter := some "g" }

/-- The permission added and then removed in the C6 counterexample. -/
def c6P : RpcCapPermission :=
  { method := some "m", caveats := none, id := some "new", date := some 2,
    granter := some "g" }

/-- The prior state of the C6 counterexample: d already holds a record with
the same natural key. -/
def c6s : CapState :=
  { domains := some [("d", { permissions := some [c6pOld] })],
    permissionsRequests := [] }

/-- The C6 counterexample state after add then remove. -/
def c6after : CapState :=
  match addPermissionsFor c6s "d" [c6P] gen0 0 with
  | .ok r =>
    (match removePermissionsFor r.1 "d" [c6P] with
     | .ok s2 => s2
     | .error _ => r.1)
  | .error _ => c6s

/-- A permission whose natural key differs from c6P, for the C6 witness. -/
def c6wOther : RpcCapPermission :=
  { method := some "z", caveats := none, id := some "zz", date := some 3,
    granter := none }

/-- The C6 witness state. -/
def c6wS : CapState :=
  { domains := some [("d", { permissions := some [c6wOther] })],
    permissionsRequests := [] }

/-- A state whose domains registry is a live object with one key, so that
getDomainSettings on a missing key mutates it in place. -/
def c7ws : CapState :=
  { domains := some [("a", { permissions := some [] })],
    permissionsRequests := [] }

/-- Configuration with a callable restricted method read. -/
def c8cfg : CapConfig :=
  { safeMethods := [],
    restrictedMethods := [("read", { description := "r", methodIsFunction := true })],
    methodPfx := "" }

/-- A static caveat with value 42. -/
def c8cav : RpcCapCaveat := { type := "static", value := some (.int 42) }

/-- A root permission for read bearing the static caveat. -/
def c8p : RpcCapPermission :=
  { method := some "read", caveats := some [c8cav], id := some "i",
    date := some 1, granter := none }

/-- The C8 witness state: siteA holds the caveated read permission. -/
def c8s : CapState :=
  { domains := some [("siteA", { permissions := some [c8p] })],
    permissionsRequests := [] }

/-- A root permission (falsy granter) terminating every walk immediately. -/
def c9wPerm : RpcCapPermission :=
  { method := some "w", caveats := none, id := some "i", date := some 1,
    granter := none }

/-- The C9 witness state: one domain with one root permission, so the hop
relation is empty and in particular acyclic. -/
def c9wState : CapState :=
  { domains := some [("a", { permissions := some [c9wPerm] })],
    permissionsRequests := [] }

/-- Configuration with a callable restricted method write, for the C10
witness. -/
def c10cfg : CapConfig :=
  { safeMethods := [],
    restrictedMethods := [("write", { description := "w", methodIsFunction := true })],
    methodPfx := "" }

theorem beq_swap {α : Type} [BEq α] [LawfulBEq α] (a b : α) :
    (a == b) = (b == a) := by
  by_cases h : a = b
  · subst h; rfl
  · rw [beq_eq_false_iff_ne.mpr h, beq_eq_false_iff_ne.mpr (Ne.symm h)]

theorem lookupD_setKey_self {α : Type} :
    ∀ (reg : List (String × α)) (k : String) (v : α),
      lookupD (setKey reg k v) k = some v := by
  intro reg
  induction reg with
  | nil => intro k v; simp [setKey, lookupD]
  | cons kv rest ih =>
    intro k v
    obtain ⟨k0, v0⟩ := kv
    by_cases h : k0 = k
    · simp [setKey, h, lookupD]
    · simp [setKey, h, lookupD, ih]

theorem lookupD_mem_keys {α : Type} :
    ∀ (reg : List (String × α)) (k : String) (v : α),
      lookupD reg k = some v → k ∈ reg.map (fun kv => kv.1) := by
  intro reg
  induction reg with
  | nil => intro k v h; simp [lookupD] at h
  | cons kv rest ih =>
    intro k v h
    obtain ⟨k0, v0⟩ := kv
    by_cases h0 : k0 = k
    · subst h0; simp
    · simp only [lookupD, if_neg h0] at h
      simp only [List.map_cons, List.mem_cons]
      exact Or.inr (ih k v h)

theorem filter_head_eq_first {α : Type} (f : α → Bool) :
    ∀ (l : List α) (p : α), (l.filter f).head? = some p →
      ∃ l1 l2, l = l1 ++ p :: l2 ∧ f p = true ∧ ∀ q ∈ l1, f q = false := by
  intro l
  induction l with
  | nil => intro p h; simp at h
  | cons a rest ih =>
    intro p h
    by_cases ha : f a = true
    · rw [List.filter_cons_of_pos ha] at h
      simp only [List.head?_cons, Option.some.injEq] at h
      subst h
      exact ⟨[], rest, rfl, ha, by intro q hq; cases hq⟩
    · rw [List.filter_cons_of_neg ha] at h
      obtain ⟨l1, l2, hsplit, hfp, hall⟩ := ih p h
      refine ⟨a :: l1, l2, by rw [List.cons_append, hsplit], hfp, ?_⟩
      intro q hq
      rcases List.mem_cons.mp hq with rfl | hq2
      · simpa using ha
      · exact hall q hq2

theorem assignIds_single (gen : Nat → String × Int) (P : RpcCapPermission)
    (k : Nat) :
    ∃ P2 k2, assignIds gen [P] k = ([P2], k2) ∧
      P2.method = P.method ∧ P2.granter = P.granter := by
  by_cases h : strFalsy P.id = true
  · refine ⟨{ P with id := some (gen k).1, date := some (gen k).2 }, k + 1,
      ?_, rfl, rfl⟩
    simp [assignIds, h]
  · refine ⟨P, k, ?_, rfl, rfl⟩
    simp [assignIds, h]

theorem addPermissionsFor_permissionsRequests (s : CapState) (dn : String)
    (ps : List RpcCapPermission) (gen : Nat → String × Int) (k : Nat)
    (r : CapState × Nat) (h : addPermissionsFor s dn ps gen k = .ok r) :
    r.1.permissionsRequests = s.permissionsRequests := by
  unfold addPermissionsFor at h
  cases hp : ((getDomainSettings s dn).1).permissions with
  | none => rw [hp] at h; cases h
  | some l =>
    rw [hp] at h
    simp only [Except.ok.injEq] at h
    rw [← h]
    rfl

theorem grantNewPermissions_permissionsRequests (s : CapState)
    (domain : String) (approved : List (String × IMethodRequest))
    (granter : Option String) (gen : Nat → String × Int) (k : Nat) :
    (grantNewPermissions s domain approved granter gen k).1.permissionsRequests
      = s.permissionsRequests := by
  unfold grantNewPermissions
  cases h : addPermissionsFor s domain
      (buildGrantPerms granter gen approved k).1 gen
      (buildGrantPerms granter gen approved k).2 with
  | error e => dsimp only; rw [h]
  | ok r =>
    dsimp only
    rw [h]
    exact addPermissionsFor_permissionsRequests _ _ _ _ _ r h

theorem gpFuel_succ (s : CapState) (m : Option String) (f : Nat) (d : String) :
    gpFuel s m (f + 1) d =
      match firstMatch s m d with
      | .error _ => some (.error ())
      | .ok none => some (.ok none)
      | .ok (some p) =>
        match truthy p.granter with
        | none => some (.ok (some p))
        | some g => gpFuel s m f g := rfl

theorem gpStep_mem_keys (s : CapState) (m : Option String) (d g : String)
    (h : gpStep s m d g) : d ∈ keysOf s := by
  obtain ⟨p, hfm, hg⟩ := h
  unfold firstMatch at hfm
  cases hpf : getPermissionsForDomain s d with
  | none => rw [hpf] at hfm; cases hfm
  | some l =>
    rw [hpf] at hfm
    unfold getPermissionsForDomain at hpf
    cases hlk : lookupD (getDomains s) d with
    | none =>
      rw [hlk] at hpf
      simp only [Option.some.injEq] at hpf
      subst hpf
      simp at hfm
    | some e =>
      unfold keysOf
      exact lookupD_mem_keys _ _ _ hlk

theorem gpFuel_isSome_aux (s : CapState) (m : Option String)
    (hac : ∀ x, ¬ Relation.TransGen (gpStep s m) x x) :
    ∀ (n : Nat) (allowed : List String) (d : String), allowed.length = n →
      (∀ e, Relation.ReflTransGen (gpStep s m) d e →
        (∃ g, gpStep s m e g) → e ∈ allowed) →
      (gpFuel s m (n + 1) d).isSome = true := by
  intro n
  induction n using Nat.strong_induction_on with
  | _ n ih =>
    intro allowed d hlen hcover
    cases hfm : firstMatch s m d with
    | error e => simp [gpFuel_succ, hfm]
    | ok po =>
      cases po with
      | none => simp [gpFuel_succ, hfm]
      | some p =>
        cases hg : truthy p.granter with
        | none => simp [gpFuel_succ, hfm, hg]
        | some g =>
          have hstep : gpStep s m d g := ⟨p, hfm, hg⟩
          have hd : d ∈ allowed := hcover d Relation.ReflTransGen.refl ⟨g, hstep⟩
          have hpos : 0 < n := by
            rcases allowed with _ | ⟨a, as⟩
            · cases hd
            · simp only [List.length_cons] at hlen; omega
          have hlen2 : (allowed.erase d).length = n - 1 := by
            rw [List.length_erase_of_mem hd, hlen]
          have hcover2 : ∀ e, Relation.ReflTransGen (gpStep s m) g e →
              (∃ g2, gpStep s m e g2) → e ∈ allowed.erase d := by
            intro e hre hse
            have hde : Relation.ReflTransGen (gpStep s m) d e :=
              Relation.ReflTransGen.head hstep hre
            have hmem : e ∈ allowed := hcover e hde hse
            have hne : e ≠ d := by
              intro heq
              have ht : Relation.TransGen (gpStep s m) d e :=
                Relation.TransGen.head' hstep hre
              rw [heq] at ht
              exact hac d ht
            exact (List.mem_erase_of_ne hne).mpr hmem
          have hrec := ih (n - 1) (by omega) (allowed.erase d) g hlen2 hcover2
          have hn : n - 1 + 1 = n := by omega
          rw [hn] at hrec
          simpa [gpFuel_succ, hfm, hg] using hrec

/-- Claim C9: on every state whose delegation-hop relation for the method is
acyclic, the getPermission walk terminates for every domain (it returns,
throws, or reports no permission, rather than looping forever). -/
theorem c9_resolver_terminates_on_acyclic (s : CapState) (m : Option String)
    (hac : ∀ x, ¬ Relation.TransGen (gpStep s m) x x) (d : String) :
    (getPermission s d m).isSome = true := by
  unfold getPermission
  exact gpFuel_isSome_aux s m hac (keysOf s).length (keysOf s) d rfl
    (fun e _ hse => by
      obtain ⟨g, hg⟩ := hse
      exact gpStep_mem_keys s m e g hg)

theorem c9w_no_step : ∀ x y, ¬ gpStep c9wState (some "w") x y := by
  intro x y h
  obtain ⟨p, hfm, hg⟩ := h
  by_cases hx : x = "a"
  · subst hx
    rw [show firstMatch c9wState (some "w") "a" = .ok (some c9wPerm) from rfl]
      at hfm
    injection hfm with h1
    injection h1 with h2
    rw [← h2] at hg
    rw [show truthy c9wPerm.granter = none from rfl] at hg
    cases hg
  · have hlk : lookupD (getDomains c9wState) x = none := by
      show lookupD [("a", ({ permissions := some [c9wPerm] } : RpcCapDomainEntry))] x
        = none
      simp only [lookupD, if_neg (Ne.symm hx)]
    have hfm2 : firstMatch c9wState (some "w") x = .ok none := by
      unfold firstMatch getPermissionsForDomain
      rw [hlk]
      rfl
    rw [hfm2] at hfm
    cases hfm

theorem c9w_acyclic :
    ∀ x, ¬ Relation.TransGen (gpStep c9wState (some "w")) x x := by
  intro x h
  cases h with
  | single h1 => exact c9w_no_step x x h1
  | tail h1 h2 => exact c9w_no_step _ x h2

/-- Witness for C9: the hop relation of the concrete one-root state is empty,
hence acyclic, and the resolver terminates there. -/
theorem c9_resolver_terminates_on_acyclic_witness :
    (∀ x, ¬ Relation.TransGen (gpStep c9wState (some "w")) x x) ∧
    (getPermission c9wState "a" (some "w")).isSome = true :=
  ⟨c9w_acyclic,
   c9_resolver_terminates_on_acyclic c9wState (some "w") c9w_acyclic "a"⟩

/-- Claim C1 (code bug): the approved S1 requestPermissions flow stores a
permission with granter user for siteA (the first reply is correct), but
getPermission then treats the truthy granter user as a delegation hop into
the nonexistent domain user and resolves nothing, so the follow-up restricted
write call from siteA ends UNAUTHORIZED instead of reaching the handler. -/
theorem c1_user_rooted_grant_unresolvable :
    storedPermissions c1final.1 "siteA" = some [c1pW] ∧
    c1pW.granter = some "user" ∧
    getPermission c1final.1 "siteA" (some "write") = some (.ok none) ∧
    providerMiddlewareFunction c1cfg c1final.1 "siteA" "write"
      = some .unauthorizedEnd :=
  ⟨rfl, rfl, rfl, rfl⟩

/-- Claim C2 (code bug): with two entries that fail to resolve, both
grantPermissionsMiddleware and revokePermissionsMiddleware invoke end twice
and assign res.error twice, because the return inside the forEach callback
does not break the loop; the claimed exactly-once end and short-circuit do
not hold. -/
theorem c2_end_called_twice_on_two_failing_entries :
    grantPermissionsMiddleware emptyState "g" "e" [c2pa, c2pb] gen0 0 =
      some (.ok (emptyState,
        { endCount := 2, errorSets := 2, resultSets := 0 }, [])) ∧
    revokePermissionsMiddleware emptyState "g" "a"
        [.byName "m1", .byName "m2"] =
      .ok (emptyState, { endCount := 2, errorSets := 2, resultSets := 0 }, []) :=
  ⟨rfl, rfl⟩

/-- Claim C3 (code bug): addPermissionsFor(d, [P, P]) with a duplicated
natural key stores both copies, leaving two records with the key
(m, user) in the domain list, violating the at-most-one-per-key invariant. -/
theorem c3_duplicate_upsert_two_records :
    storedPermissions c3res "d" = some [c3P, c3P] ∧
    (((storedPermissions c3res "d").getD []).filter
      (fun q => q.method == some "m" && q.granter == some "user")).length = 2 :=
  ⟨rfl, rfl⟩

/-- Counterexample for C4: after registering the pending request, an empty
approval map (user rejection) leaves the ticket in
state.permissionsRequests, so it is not destroyed on rejection. -/
theorem c4_rejected_request_not_removed_cex :
    (requestPermissionsContinuation c4phase1.1 "siteA" c4phase1.2.1
      (.resolved []) gen0 c4phase1.2.2).1.permissionsRequests
        = [c4phase1.2.1] ∧
    c4phase1.1.permissionsRequests = [c4phase1.2.1] ∧
    ([c4phase1.2.1] : List IPermissionsRequest) ≠ [] :=
  ⟨rfl, rfl, List.cons_ne_nil _ _⟩

/-- Claim C4 as amended: the pending request is removed only on approval with
a non-empty map; on an empty-map rejection and on an approver error the
pending list is left unchanged, while a non-empty approval removes exactly
the requests bearing the ticket's metadata id. -/
theorem c4_request_removed_only_on_approval (s : CapState) (domain : String)
    (pr : IPermissionsRequest) (gen : Nat → String × Int) (k : Nat) :
    (requestPermissionsContinuation s domain pr .rejected gen k).1.permissionsRequests
      = s.permissionsRequests ∧
    (requestPermissionsContinuation s domain pr (.resolved []) gen k).1.permissionsRequests
      = s.permissionsRequests ∧
    ∀ (a : String × IMethodRequest) (rest : List (String × IMethodRequest)),
      (requestPermissionsContinuation s domain pr
          (.resolved (a :: rest)) gen k).1.permissionsRequests
        = s.permissionsRequests.filter
            (fun r => !(r.metadata.id == pr.metadata.id)) := by
  refine ⟨rfl, rfl, ?_⟩
  intro a rest
  unfold requestPermissionsContinuation
  simp only [List.length_cons, Nat.succ_ne_zero, if_false]
  cases hg : (grantNewPermissions
      (removePermissionsRequest s pr.metadata.id) domain (a :: rest) none gen k).2 with
  | error e =>
    dsimp only
    rw [grantNewPermissions_permissionsRequests]
    rfl
  | ok tr =>
    dsimp only
    rw [grantNewPermissions_permissionsRequests]
    rfl

/-- Counterexample for C5: for a domain holding only a record with granter
user, getPermissionUnTraversed with granter equal to the domain returns
nothing, while the spec's matching rule (self-root means granter user)
selects the record. -/
theorem c5_self_root_sentinel_cex :
    getPermissionUnTraversed c5s "d" (some "m") (some "d") = .ok none ∧
    getPermissionUnTraversedSpec c5s "d" (some "m") (some "d") = some c5perm ∧
    (Except.ok none : Except Unit (Option RpcCapPermission))
      ≠ .ok (some c5perm) :=
  ⟨rfl, rfl, by decide⟩

/-- Claim C5 as amended: getPermissionUnTraversed returns the first
permission of the domain whose method matches and whose granter matches in
the source's sense, namely an undefined granter field with the granter
argument equal to the domain (own permission), or a defined granter field
equal to the granter argument; when no permission matches it returns none. -/
theorem c5_untraversed_first_match (s : CapState) (domain : String)
    (method granter : Option String) (l : List RpcCapPermission)
    (hl : getPermissionsForDomain s domain = some l) :
    (∀ p, getPermissionUnTraversed s domain method granter = .ok (some p) →
      ∃ l1 l2, l = l1 ++ p :: l2 ∧
        untraversedPred method domain granter p = true ∧
        ∀ q ∈ l1, untraversedPred method domain granter q = false) ∧
    (getPermissionUnTraversed s domain method granter = .ok none →
      ∀ q ∈ l, untraversedPred method domain granter q = false) := by
  constructor
  · intro p hp
    unfold getPermissionUnTraversed at hp
    rw [hl] at hp
    simp only [Except.ok.injEq] at hp
    exact filter_head_eq_first _ l p hp
  · intro h q hq
    unfold getPermissionUnTraversed at h
    rw [hl] at h
    simp only [Except.ok.injEq, List.head?_eq_none_iff,
      List.filter_eq_nil_iff] at h
    simpa using h q hq

/-- Witness for C5: on a two-element list whose first element does not match,
the amended first-match description picks out the second element. -/
theorem c5_untraversed_first_match_witness :
    getPermissionsForDomain c5wS "d" = some [c5wP0, c5wP1] ∧
    (∃ l1 l2, [c5wP0, c5wP1] = l1 ++ c5wP1 :: l2 ∧
      untraversedPred (some "m") "d" (some "d") c5wP1 = true ∧
      ∀ q ∈ l1, untraversedPred (some "m") "d" (some "d") q = false) :=
  ⟨rfl, (c5_untraversed_first_match c5wS "d" (some "m") (some "d")
    [c5wP0, c5wP1] rfl).1 c5wP1 rfl⟩

/-- Counterexample for C6: when the prior list already holds a record with
P's natural key, addPermissionsFor then removePermissionsFor leaves the list
empty rather than restoring the prior record. -/
theorem c6_add_remove_not_restoring_cex :
    storedPermissions c6s "d" = some [c6pOld] ∧
    storedPermissions c6after "d" = some [] ∧
    some ([] : List RpcCapPermission) ≠ some [c6pOld] :=
  ⟨rfl, rfl, by decide⟩

theorem getDomainSettings_setDomain_self (s : CapState) (d : String)
    (E : RpcCapDomainEntry) :
    (getDomainSettings (setDomain s d E) d).1 = E := by
  unfold getDomainSettings
  rw [show lookupD (getDomains (setDomain s d E)) d = some E from
    lookupD_setKey_self _ _ _]

theorem storedPermissions_setDomain_self (s : CapState) (d : String)
    (E : RpcCapDomainEntry) :
    storedPermissions (setDomain s d E) d = E.permissions := by
  unfold storedPermissions lookupDomain
  rw [show lookupD (getDomains (setDomain s d E)) d = some E from
    lookupD_setKey_self _ _ _]

theorem addPermissionsFor_of_perms (s : CapState) (d : String)
    (l ns : List RpcCapPermission) (gen : Nat → String × Int) (k : Nat)
    (hp : ((getDomainSettings s d).1).permissions = some l) :
    addPermissionsFor s d ns gen k = .ok
      (setDomain s d
        { permissions := some
            ((l.filter (fun oldPerm => !(ns.any (fun newPerm =>
                oldPerm.method == newPerm.method &&
                oldPerm.granter == newPerm.granter))))
              ++ (assignIds gen ns k).1) },
       (assignIds gen ns k).2) := by
  unfold addPermissionsFor
  rw [hp]

theorem removePermissionsFor_of_perms (s : CapState) (d : String)
    (l rs : List RpcCapPermission)
    (hp : ((getDomainSettings s d).1).permissions = some l) :
    removePermissionsFor s d rs = .ok
      (setDomain s d
        { permissions := some
            (l.filter (fun perm => !(rs.any (fun r =>
              r.method == perm.method && r.granter == perm.granter)))) }) := by
  unfold removePermissionsFor
  rw [hp]

/-- Claim C6 as amended: when domain d holds a permissions list l,
addPermissionsFor(d, [P]) followed by removePermissionsFor(d, [P]) succeeds
and leaves d's permissions equal to l with every record bearing P's natural
key (method, granter) removed; in particular the prior value l is restored
exactly when no prior record shared P's natural key. -/
theorem c6_add_remove_removes_key (s : CapState) (d : String)
    (l : List RpcCapPermission) (P : RpcCapPermission)
    (gen : Nat → String × Int) (k : Nat)
    (hl : storedPermissions s d = some l) :
    ∃ s1 k1 s2,
      addPermissionsFor s d [P] gen k = .ok (s1, k1) ∧
      removePermissionsFor s1 d [P] = .ok s2 ∧
      storedPermissions s2 d =
        some (l.filter (fun q =>
          !(q.method == P.method && q.granter == P.granter))) ∧
      ((∀ q ∈ l, ¬(q.method = P.method ∧ q.granter = P.granter)) →
        storedPermissions s2 d = some l) := by
  unfold storedPermissions lookupDomain at hl
  cases he : lookupD (getDomains s) d with
  | none => rw [he] at hl; cases hl
  | some e =>
    simp only [he] at hl
    obtain ⟨P2, k2, hass, hm2, hg2⟩ := assignIds_single gen P k
    have hent : ((getDomainSettings s d).1).permissions = some l := by
      unfold getDomainSettings
      rw [he]
      exact hl
    have hadd := addPermissionsFor_of_perms s d l [P] gen k hent
    rw [hass] at hadd
    have hGtrue : ∀ (q : RpcCapPermission),
        (¬(q.method = P.method ∧ q.granter = P.granter)) →
        (!(q.method == P.method && q.granter == P.granter)) = true := by
      intro q hn
      cases hbm : q.method == P.method with
      | false => rfl
      | true =>
        cases hbg : q.granter == P.granter with
        | false => rfl
        | true => exact absurd ⟨eq_of_beq hbm, eq_of_beq hbg⟩ hn
    refine ⟨_, _, _, hadd, removePermissionsFor_of_perms _ _ _ _
      (by rw [getDomainSettings_setDomain_self]), ?_, ?_⟩
    · rw [storedPermissions_setDomain_self]
      simp only [List.filter_append, List.filter_filter]
      have hR2 : (!(List.any [P] (fun r =>
          r.method == P2.method && r.granter == P2.granter))) = false := by
        simp [hm2, hg2]
      rw [show List.filter (fun perm => !(List.any [P] (fun r =>
          r.method == perm.method && r.granter == perm.granter))) [P2] = []
        from by simp only [List.filter_cons, hR2]; rfl]
      rw [List.append_nil]
      congr 1
      refine List.filter_congr ?_
      intro x hx
      simp only [List.any_cons, List.any_nil, Bool.or_false]
      rw [beq_swap P.method x.method, beq_swap P.granter x.granter]
      exact Bool.and_self _
    · intro hno
      rw [storedPermissions_setDomain_self]
      simp only [List.filter_append, List.filter_filter]
      have hR2 : (!(List.any [P] (fun r =>
          r.method == P2.method && r.granter == P2.granter))) = false := by
        simp [hm2, hg2]
      rw [show List.filter (fun perm => !(List.any [P] (fun r =>
          r.method == perm.method && r.granter == perm.granter))) [P2] = []
        from by simp only [List.filter_cons, hR2]; rfl]
      rw [List.append_nil]
      congr 1
      rw [List.filter_congr (q := fun q =>
        !(q.method == P.method && q.granter == P.granter)) ?_]
      · exact List.filter_eq_self.mpr (fun q hq => hGtrue q (hno q hq))
      · intro x hx
        simp only [List.any_cons, List.any_nil, Bool.or_false]
        rw [beq_swap P.method x.method, beq_swap P.granter x.granter]
        exact Bool.and_self _

/-- Witness for C6: on a domain holding one record with a different natural
key, add-then-remove of c6P succeeds and the filtered-list description of the
amended claim holds. -/
theorem c6_add_remove_removes_key_witness :
    storedPermissions c6wS "d" = some [c6wOther] ∧
    (∃ s1 k1 s2,
      addPermissionsFor c6wS "d" [c6P] gen0 0 = .ok (s1, k1) ∧
      removePermissionsFor s1 "d" [c6P] = .ok s2 ∧
      storedPermissions s2 "d" =
        some ([c6wOther].filter (fun q =>
          !(q.method == c6P.method && q.granter == c6P.granter))) ∧
      ((∀ q ∈ [c6wOther], ¬(q.method = c6P.method ∧ q.granter = c6P.granter)) →
        storedPermissions s2 "d" = some [c6wOther])) :=
  ⟨rfl, c6_add_remove_removes_key c6wS "d" [c6wOther] c6P gen0 0 rfl⟩

/-- Counterexample for C7: on a state whose domains registry exists,
getDomainSettings of an absent domain changes state.domains immediately (the
JS code writes into the object returned by getDomains), rather than leaving
the committed state unchanged until a later setDomain. -/
theorem c7_get_domain_settings_mutates_cex :
    (getDomainSettings c7ws "b").2.domains ≠ c7ws.domains ∧
    (getDomainSettings c7ws "b").2.domains =
      some [("a", { permissions := some [] }),
            ("b", { permissions := some [] })] :=
  ⟨by decide, rfl⟩

/-- Claim C7 as amended: for an absent domain, getDomainSettings returns the
empty entry; when state.domains is unset the state is unchanged, but when
state.domains is a present registry the empty entry is inserted into it by
the call itself (no update event is emitted; setDomain is what commits with
notification). -/
theorem c7_get_domain_settings_lazy_insert (s : CapState) (d : String)
    (habs : lookupDomain s d = none) :
    (getDomainSettings s d).1 = { permissions := some [] } ∧
    (s.domains = none → (getDomainSettings s d).2 = s) ∧
    (∀ reg, s.domains = some reg →
      (getDomainSettings s d).2.domains =
        some (setKey reg d { permissions := some [] }) ∧
      (getDomainSettings s d).2.permissionsRequests = s.permissionsRequests ∧
      lookupDomain (getDomainSettings s d).2 d =
        some { permissions := some [] }) := by
  unfold lookupDomain at habs
  unfold getDomainSettings
  rw [habs]
  cases hd : s.domains with
  | none =>
    refine ⟨rfl, fun _ => rfl, ?_⟩
    intro reg hreg
    exact Option.noConfusion hreg
  | some reg =>
    refine ⟨rfl, ?_, ?_⟩
    · intro h
      exact Option.noConfusion h
    · intro reg2 hreg
      injection hreg with he2
      subst he2
      refine ⟨rfl, rfl, ?_⟩
      unfold lookupDomain
      exact lookupD_setKey_self _ _ _

/-- Witness for C7: applying the amended description to the concrete
registry-present state. -/
theorem c7_get_domain_settings_lazy_insert_witness :
    lookupDomain c7ws "b" = none ∧
    (getDomainSettings c7ws "b").1 = { permissions := some [] } ∧
    (getDomainSettings c7ws "b").2.domains =
      some (setKey [("a", { permissions := some [] })] "b"
        { permissions := some [] }) :=
  ⟨rfl, (c7_get_domain_settings_lazy_insert c7ws "b" rfl).1,
    ((c7_get_domain_settings_lazy_insert c7ws "b" rfl).2.2 _ rfl).1⟩

/-- Claim C8: when the resolved permission carries at least one static
caveat and the method is registered with a callable handler, executeMethod
sets res.result to the value of the last static caveat and ends without
invoking the handler. -/
theorem c8_static_caveat_short_circuit (cfg : CapConfig) (s : CapState)
    (d m : String) (p : RpcCapPermission) (cs : List RpcCapCaveat)
    (c : RpcCapCaveat)
    (hres : getPermission s d (some m) = some (.ok (some p)))
    (hcall : isRestrictedCallable cfg m = true)
    (hcav : p.caveats = some cs)
    (hlast : (cs.filter (fun c0 => c0.type == "static")).getLast? = some c) :
    executeMethod cfg s d m = some (.ok (.staticResult c.value)) ∧
    executeMethod cfg s d m ≠ some (.ok .handlerInvoked) := by
  have hmain : executeMethod cfg s d m = some (.ok (.staticResult c.value)) := by
    unfold executeMethod
    rw [hres]
    simp only [hcall, if_true]
    rw [hcav]
    simp only [hlast]
  refine ⟨hmain, ?_⟩
  rw [hmain]
  intro h
  simp at h

/-- Witness for C8: the concrete caveated read permission short-circuits to
the static value 42. -/
theorem c8_static_caveat_short_circuit_witness :
    getPermission c8s "siteA" (some "read") = some (.ok (some c8p)) ∧
    isRestrictedCallable c8cfg "read" = true ∧
    executeMethod c8cfg c8s "siteA" "read" =
      some (.ok (.staticResult (some (.int 42)))) :=
  ⟨rfl, rfl, (c8_static_caveat_short_circuit c8cfg c8s "siteA" "read" c8p
    [c8cav] c8cav rfl rfl rfl rfl).1⟩

/-- Claim C10: executeMethod re-resolves the permission itself; when no
permission resolves while the method is registered with a callable handler,
it throws by reading the caveats field of an undefined permission instead of
setting an error on res and ending the request. -/
theorem c10_execute_crashes_without_permission (cfg : CapConfig)
    (s : CapState) (d m : String)
    (hres : getPermission s d (some m) = some (.ok none))
    (hcall : isRestrictedCallable cfg m = true) :
    executeMethod cfg s d m = some (.error .undefinedPermission) := by
  unfold executeMethod
  rw [hres]
  simp only [hcall, if_true]

/-- Witness for C10: calling the registered write method from a domain with
no grant crashes inside executeMethod. -/
theorem c10_execute_crashes_without_permission_witness :
    getPermission emptyState "siteB" (some "write") = some (.ok none) ∧
    isRestrictedCallable c10cfg "write" = true ∧
    executeMethod c10cfg emptyState "siteB" "write" =
      some (.error .undefinedPermission) :=
  ⟨rfl, rfl, c10_execute_crashes_without_permission c10cfg emptyState
    "siteB" "write" rfl rfl⟩
